import Mathlib

/-!
Shallow embedding of the klighd-vscode repository sources:
  * `src/keith-diagram/src/browser/keith-diagram-manager.ts` (KeithDiagramManager)
  * `src/extensions/klighd-diagram/src/klighd-extension.ts` (KLighDExtension)
  * `src/unnamed/part_000` (interactive layer/position/constraint rendering)

TypeScript numbers are modelled as `Rat` where geometry is computed and as
`Int` where only identifiers/indices are compared; fallible array accesses
(`xs[i].field` on a possibly `undefined` element, which throws a TypeError in
JS) are modelled with `Option`; mutation of a node's fields is modelled by
returning the updated node; thrown `Error`s are modelled with `Except`.
External framework values (Theia widgets, URIs, language clients, opener
options, the sprotty-theia base class methods and the helpers of
`@kieler/keith-interactive/lib/constraint-utils`, none of which are under
`src/`) are modelled as type parameters and function parameters.
-/

namespace Klighd

/-! ## KLighDExtension (`src/extensions/klighd-diagram/src/klighd-extension.ts`) -/

/-- Options handed to the `KLighDExtension` constructor by the host extension. -/
structure KLighDExtensionOptions (Client : Type) where
  lsClient : Client
  supportedFileEnding : List String

/-- The static state of the `KLighDExtension` class: the static property
`lsClient`, which is unset until the first constructor call. -/
structure KLighDStatic (Client : Type) where
  lsClient : Option Client

/-- The per-instance state of a `KLighDExtension`: the instance property
`supportedFileEndings`. -/
structure KLighDExtension (Client : Type) where
  supportedFileEndings : List String

/-- The constructor body of `KLighDExtension`: it stores `options.lsClient`
into the static property (before calling `super`) and stores
`options.supportedFileEnding` on the instance.  The `ExtensionContext`
argument is only passed through to the superclass. -/
def KLighDExtension.construct {Client Ctx : Type} (st : KLighDStatic Client) (context : Ctx)
    (options : KLighDExtensionOptions Client) :
    KLighDStatic Client × KLighDExtension Client :=
  let _ := context
  let _ := st
  ({ lsClient := some options.lsClient }, { supportedFileEndings := options.supportedFileEnding })

/-- Embeds `KLighDExtension.activateLanguageClient`: ignores its `ExtensionContext`
argument and returns the static `lsClient` property. -/
def activateLanguageClient {Client Ctx : Type} (st : KLighDStatic Client) (context : Ctx) :
    Option Client :=
  let _ := context
  st.lsClient

/-- A VS Code `Uri`, reduced to the only field the code reads: `path`. -/
structure VsUri where
  path : String

/-- One element of the `commandArgs` array: either a VS Code `Uri` instance or
any other JavaScript value (`other`), which fails the `instanceof Uri` test. -/
inductive CommandArg where
  | uri (u : VsUri)
  | other (tag : Nat)

/-- Embeds `KLighDExtension.pathHasSupportedFileEnding`: whether some configured file
ending is a suffix of `path`. -/
def pathHasSupportedFileEnding (supportedFileEndings : List String) (path : String) : Bool :=
  supportedFileEndings.any (fun ending => path.endsWith ending)

/-- Embeds `KLighDExtension.getDiagramType`: returns the configured diagram type
(`diagramType` from `constants.ts`, passed here as the parameter `dt` since
`constants.ts` is not under `src/`) when `commandArgs[0]` is a `Uri` whose
path has a supported file ending, and `undefined` (`none`) otherwise. -/
def getDiagramType (dt : String) (ext : KLighDExtension Client) (commandArgs : List CommandArg) :
    Option String :=
  match commandArgs with
  | CommandArg.uri u :: _ =>
      if pathHasSupportedFileEnding ext.supportedFileEndings u.path then some dt else none
  | _ => none

/-! ## KeithDiagramManager (`src/keith-diagram/src/browser/keith-diagram-manager.ts`) -/

/-- An editor widget, reduced to the only call the manager makes on it:
`getResourceUri()`, which yields a `URI` instance or `undefined`. -/
structure EditorWidget (U : Type) where
  getResourceUri : Option U

/-- Embeds `KeithDiagramManager.onCurrentEditorChanged`: pops the last widget from
`widgetManager.getWidgets(this.id)`; when a widget exists, the editor widget is
defined and its resource URI is a URI instance, it calls `drawDiagram(uri)`.
The result is the URI passed to `drawDiagram`, or `none` when the handler does
nothing. -/
def onCurrentEditorChanged {U W : Type} (widgets : List W)
    (editorWidget : Option (EditorWidget U)) : Option U :=
  match widgets.getLast?, editorWidget with
  | some _, some ew =>
      match ew.getResourceUri with
      | some uri => some uri
      | none => none
  | _, _ => none

/-- Theia `WidgetOpenerOptions`: the `mode` field the manager overrides, plus
all remaining fields collected in `rest`. -/
structure WidgetOpenerOptions (ρ : Type) where
  mode : Option String
  rest : Option ρ

/-- The object spread `{...input, mode: 'reveal'}` where `input` may be
`undefined`: every field of `input` is kept except `mode`, which is forced to
`'reveal'`. -/
def spreadWithReveal {ρ : Type} (input : Option (WidgetOpenerOptions ρ)) :
    WidgetOpenerOptions ρ :=
  { mode := some "reveal"
    rest := match input with
            | some i => i.rest
            | none => none }

/-- Trace of one `KeithDiagramManager.open` call: the arguments passed to the
base-class `open`, the widget promise returned, and the URI fired on the
`onDiagramOpened` emitter once that promise resolves. -/
structure OpenCall (U W ρ : Type) where
  superUri : U
  superOptions : WidgetOpenerOptions ρ
  result : W
  fired : U

/-- Embeds `KeithDiagramManager.open` (named `openDiagram` because `open` is a Lean
keyword): delegates to the base contract's `open` (the parameter `superOpen`)
with the options' `mode` forced to `'reveal'`, returns the same widget
promise and fires `onDiagramOpened` with the uri once the promise resolves. -/
def openDiagram {U W ρ : Type} (superOpen : U → WidgetOpenerOptions ρ → W) (uri : U)
    (input : Option (WidgetOpenerOptions ρ)) : OpenCall U W ρ :=
  let options := spreadWithReveal input
  { superUri := uri
    superOptions := options
    result := superOpen uri options
    fired := uri }

/-- The widget options produced by the base contract's `createWidgetOptions`:
the `label` field the manager overrides, plus all remaining fields in `rest`. -/
structure WidgetFactoryOptions (σ : Type) where
  label : String
  rest : σ

/-- Embeds `KeithDiagramManager.createWidgetOptions`: the base contract's widget
options (the parameter `superCreateWidgetOptions`) with `label` replaced by
`'Diagram'`. -/
def createWidgetOptions {U ρ σ : Type}
    (superCreateWidgetOptions : U → Option (WidgetOpenerOptions ρ) → WidgetFactoryOptions σ)
    (uri : U) (options : Option (WidgetOpenerOptions ρ)) : WidgetFactoryOptions σ :=
  { superCreateWidgetOptions uri options with label := "Diagram" }

/-- Embeds `KeithDiagramManager.createClientId`: returns `this.diagramType`, the
constant `'keith-diagram'`. -/
def createClientId : String := "keith-diagram"

/-- The environment `createWidget` runs in: the `DiagramWidgetOptions.is` type
guard and `JSON.stringify` (both from outside `src/`), and the composition
`diagramConfigurationRegistry.get(options.diagramType).createContainer(id)`
as one function from the options and the container id to the DI container. -/
structure CreateWidgetEnv (Opts Container : Type) where
  isDiagramWidgetOptions : Opts → Bool
  jsonStringify : Opts → String
  createContainer : Opts → String → Container

/-- A Theia widget as far as `createWidget` is concerned: the
`KeithDiagramWidget` constructed from the options, client id, DI container and
diagram connector. -/
inductive TheiaWidget (Opts Container Connector : Type) where
  | keithDiagramWidget (options : Opts) (clientId : String) (diContainer : Container)
      (connector : Connector)

/-- Embeds `KeithDiagramManager.createWidget`: when the options satisfy
`DiagramWidgetOptions.is`, constructs a `KeithDiagramWidget` from the client
id, the DI container built by the configuration registry, and the connector;
otherwise throws an `Error` with the fixed message prefix followed by the JSON
serialization of the options. -/
def createWidget {Opts Container Connector : Type} (env : CreateWidgetEnv Opts Container)
    (connector : Connector) (options : Opts) :
    Except String (TheiaWidget Opts Container Connector) :=
  if env.isDiagramWidgetOptions options then
    let clientId := createClientId
    let diContainer := env.createContainer options (clientId ++ "_sprotty")
    Except.ok (TheiaWidget.keithDiagramWidget options clientId diContainer connector)
  else
    Except.error ("DiagramWidgetFactory needs DiagramWidgetOptions but got "
      ++ env.jsonStringify options)

/-! ## Interactive layer rendering (`src/unnamed/part_000`) -/

/-- A 2D point, as used in `node.position`. -/
structure KPoint where
  x : Rat
  y : Rat
deriving DecidableEq, Repr

/-- A 2D extent, as used in `node.size`. -/
structure KSize where
  width : Rat
  height : Rat
deriving DecidableEq, Repr

/-- The fields of a `KNode` from
`@kieler/keith-interactive/lib/constraint-classes` that the rendering code
reads or writes. -/
structure KNodeData where
  selected : Bool
  layerId : Int
  posId : Int
  layerCons : Int
  posCons : Int
  position : KPoint
  size : KSize
  hierWidth : Rat
  hierHeight : Rat
deriving DecidableEq, Repr

/-- A `KNode`: its own fields plus its children in the hierarchical graph. -/
inductive KNode where
  | mk (data : KNodeData) (children : List KNode)

/-- The field record of a node. -/
def KNode.data : KNode → KNodeData
  | KNode.mk d _ => d

/-- The children of a node. -/
def KNode.children : KNode → List KNode
  | KNode.mk _ c => c

def KNode.selected (n : KNode) : Bool := n.data.selected

def KNode.layerId (n : KNode) : Int := n.data.layerId

def KNode.posId (n : KNode) : Int := n.data.posId

def KNode.layerCons (n : KNode) : Int := n.data.layerCons

def KNode.posCons (n : KNode) : Int := n.data.posCons

def KNode.position (n : KNode) : KPoint := n.data.position

def KNode.size (n : KNode) : KSize := n.data.size

def KNode.hierWidth (n : KNode) : Rat := n.data.hierWidth

def KNode.hierHeight (n : KNode) : Rat := n.data.hierHeight

/-- The two assignments `root.hierHeight = h; root.hierWidth = w` of
`renderLayer`, as a functional update: only those two fields change. -/
def KNode.setHier (n : KNode) (h w : Rat) : KNode :=
  KNode.mk { n.data with hierHeight := h, hierWidth := w } n.children

/-- A `Layer` from `constraint-classes`: its horizontal extent, middle, and
vertical extent. -/
structure Layer where
  leftX : Rat
  rightX : Rat
  mid : Rat
  topY : Rat
  botY : Rat
deriving DecidableEq, Repr

/-- A snabbdom virtual-DOM node, restricted to the shapes this file builds.
The creators of `./interactiveView-objects` (`createRect`,
`createVerticalLine`, `createCircle`, `lock`, `arrow`), which are not under
`src/`, are modelled as opaque constructors applied to exactly the arguments
the rendering code passes them. -/
inductive VNode where
  | g (children : List VNode)
  | rect (x y width height : Rat) (forbidden onlyLC : Bool)
  | vline (mid topY botY : Rat)
  | circle (filled : Bool) (x y : Rat) (forbidden : Bool)
  | lockIcon (x y : Rat)
  | arrowIcon (x y : Rat) (vertical : Bool)

/-- Embeds `createRect` from `interactiveView-objects`. -/
def createRect (x y width height : Rat) (forbidden onlyLC : Bool) : VNode :=
  VNode.rect x y width height forbidden onlyLC

/-- Embeds `createVerticalLine` from `interactiveView-objects`. -/
def createVerticalLine (mid topY botY : Rat) : VNode :=
  VNode.vline mid topY botY

/-- Embeds `createCircle` from `interactiveView-objects`. -/
def createCircle (filled : Bool) (x y : Rat) (forbidden : Bool) : VNode :=
  VNode.circle filled x y forbidden

/-- Embeds `lock` from `interactiveView-objects`. -/
def lock (x y : Rat) : VNode :=
  VNode.lockIcon x y

/-- Embeds `arrow` from `interactiveView-objects`. -/
def arrow (x y : Rat) (vertical : Bool) : VNode :=
  VNode.arrowIcon x y vertical

/-- The helpers imported from
`@kieler/keith-interactive/lib/constraint-utils` (not under `src/`), modelled
as an environment of function parameters with the argument and result types
the rendering code uses them at. -/
structure ConstraintUtils where
  filterKNodes : List KNode → List KNode
  getLayers : List KNode → List Layer
  getLayerOfNode : KNode → List KNode → List Layer → Int
  isLayerForbidden : KNode → Int → Bool
  shouldOnlyLCBeSet : KNode → List Layer → Bool
  getNodesOfLayer : Int → List KNode → List KNode
  getPosInLayer : List KNode → KNode → Int

/-- Modelled from the spec: `getSelectedNode` of `constraint-utils` is not
under `src/`; the spec and the code's comments equate its `undefined` result
with no node of the list being selected, so it is the first node with the
`selected` flag set, or `undefined`. -/
def getSelectedNode (nodes : List KNode) : Option KNode :=
  nodes.find? (fun n => n.selected)

/-- The `for (let i = 0; i < layers.length; i++)` loop of `renderLayer`: the
layer at index `currentLayer` becomes a rectangle, every other layer a
vertical line at its middle, each wrapped around the accumulated group. -/
def layersLoop (layers : List Layer) (currentLayer : Int) (topY botY : Rat)
    (forbidden onlyLC : Bool) : VNode :=
  layers.enum.foldl
    (fun result il =>
      let layer := il.2
      if (il.1 : Int) == currentLayer then
        VNode.g [result,
          createRect layer.leftX topY (layer.rightX - layer.leftX) (botY - topY) forbidden onlyLC]
      else
        VNode.g [result, createVerticalLine layer.mid topY botY])
    (VNode.g [])

/-- The condition `lastLNodes.length !== 1 || !lastLNodes[0].selected` of
`renderLayer`: show the new empty last layer unless the moved node is the only
node in the last layer. -/
def showNewLastLayer (cu : ConstraintUtils) (nodes : List KNode) (numLayers : Nat) : Bool :=
  match cu.getNodesOfLayer ((numLayers : Int) - 1) nodes with
  | [n] => !n.selected
  | _ => true

/-- The `for (let i = 0; i < layerNodes.length - 1; i++)` loop of
`renderPositions`: a circle at the mid between adjacent non-selected nodes,
filled when `curPos === i + shift`; `shift` drops to `0` at the pair involving
the selected node. -/
def positionsLoop (layerNodes : List KNode) (curPos : Int) (x : Rat) (forbidden : Bool) :
    VNode × Int :=
  ((layerNodes.zip layerNodes.tail).enum).foldl
    (fun acc ip =>
      let result := acc.1
      let shift := acc.2
      let node := ip.2.1
      let next := ip.2.2
      if !node.selected && !next.selected then
        let topY := node.position.y + node.size.height
        let botY := next.position.y
        let midY := topY + (botY - topY) / 2
        (VNode.g [result, createCircle (curPos == (ip.1 : Int) + shift) x midY forbidden], shift)
      else
        (result, 0))
    (VNode.g [], 1)

/-- Embeds `renderPositions`: circles for the available positions in layer `current`.
The JS `layerNodes.sort((a, b) => a.posId - b.posId)` is a stable sort by
`posId` (ES2019 `Array.prototype.sort` is stable), modelled by the stable
`List.insertionSort`.  `none` models the TypeError that the JS code throws
when it reads a field of `layers[current]` (respectively
`layers[layers.length - 1]`) and that index is out of bounds, or reads
`nodes[0]` of an empty node list. -/
def renderPositions (cu : ConstraintUtils) (current : Int) (nodes : List KNode)
    (layers : List Layer) (forbidden : Bool) : Option VNode :=
  let layerNodes := cu.getNodesOfLayer current nodes
  match nodes with
  | [] => none
  | n0 :: _ =>
    let target := ((nodes.filter (fun n => n.selected)).getLast?).getD n0
    let curPos := cu.getPosInLayer layerNodes target
    match List.insertionSort (fun a b => a.posId ≤ b.posId) layerNodes with
    | first :: rest =>
      match (if 0 ≤ current then layers.get? current.toNat else none) with
      | none => none
      | some currentL =>
        let sorted := first :: rest
        let x := currentL.mid
        let loop := positionsLoop sorted curPos x forbidden
        let result := loop.1
        let shift := loop.2
        let result :=
          if !first.selected then
            let y := currentL.topY + (first.position.y - currentL.topY) / 2
            VNode.g [result, createCircle (curPos == 0) x y forbidden]
          else result
        let last := sorted.getLast (by simp [sorted])
        let result :=
          if !last.selected then
            let y := currentL.botY
              - (currentL.botY - (last.position.y + last.size.height)) / 2
            VNode.g [result,
              createCircle (curPos == (sorted.length : Int) - 1 + shift) x y forbidden]
          else result
        some result
    | [] =>
      match layers.getLast? with
      | none => none
      | some lastL =>
        let x := lastL.mid + (lastL.rightX - lastL.leftX)
        let y := lastL.topY + (lastL.botY - lastL.topY) / 2
        some (VNode.g [createCircle true x y forbidden])

/-- Embeds `renderLayer`: the rectangle/line visualization of the layers, the
optional new empty last layer, the update of `root.hierHeight` and
`root.hierWidth`, and (unless only the layer constraint will be set) the
available positions.  The updated root is returned alongside the virtual-DOM
node; `none` models the TypeError thrown when `layers[0]` or
`layers[layers.length - 1]` is `undefined`, or propagated from
`renderPositions`. -/
def renderLayer (cu : ConstraintUtils) (nodes : List KNode) (root : KNode) :
    Option (VNode × KNode) :=
  match getSelectedNode nodes with
  | none => some (VNode.g [], root)
  | some selNode =>
    let layers := cu.getLayers nodes
    match layers.head?, layers.getLast? with
    | some firstLayer, some lastL =>
      let currentLayer := cu.getLayerOfNode selNode nodes layers
      let forbidden := cu.isLayerForbidden selNode currentLayer
      let topY := firstLayer.topY
      let botY := firstLayer.botY
      let onlyLC := cu.shouldOnlyLCBeSet selNode layers && selNode.layerId != currentLayer
      let base := layersLoop layers currentLayer topY botY forbidden onlyLC
      let showExtra := showNewLastLayer cu nodes layers.length
      let rightX := if showExtra then lastL.rightX + lastL.rightX - lastL.leftX else lastL.rightX
      let result :=
        if showExtra then
          if currentLayer == (layers.length : Int) then
            VNode.g [base,
              createRect lastL.rightX topY (lastL.rightX - lastL.leftX) (botY - topY)
                forbidden onlyLC]
          else
            VNode.g [base,
              createVerticalLine (lastL.mid + (lastL.rightX - lastL.leftX)) topY botY]
        else base
      let root2 := root.setHier root.size.height (rightX - firstLayer.leftX + 10)
      if !onlyLC then
        (renderPositions cu currentLayer nodes layers forbidden).map
          (fun positions => (VNode.g [result, positions], root2))
      else
        some (result, root2)
    | _, _ => none

/-- Embeds `renderInteractiveLayout`: filters the root's children to KNodes and wraps
`renderLayer` in a group. -/
def renderInteractiveLayout (cu : ConstraintUtils) (root : KNode) : Option (VNode × KNode) :=
  let nodes := cu.filterKNodes root.children
  (renderLayer cu nodes root).map (fun vr => (VNode.g [vr.1], vr.2))

/-- The local function `layerCons` of the rendering file (renamed: the KNode
field of the same name exists too): lock plus horizontal arrow. -/
def layerConsIcon (x y : Rat) : VNode :=
  VNode.g [lock x y, arrow (x - 2.15) (y + 2.6) false]

/-- The local function `posCons` of the rendering file (renamed likewise):
lock plus vertical arrow. -/
def posConsIcon (x y : Rat) : VNode :=
  VNode.g [lock x y, arrow (x + 0.1) (y + 2.5) true]

/-- Embeds `renderConstraints`: one icon for the node's set constraints — a plain
lock when both constraints are set, lock+horizontal-arrow when only the layer
constraint is set, lock+vertical-arrow when only the position constraint is
set, nothing when neither is. -/
def renderConstraints (node : KNode) : VNode :=
  let result := VNode.g []
  let x := if node.hierWidth != 0 then node.hierWidth else node.size.width
  let y : Rat := 0
  if node.layerCons != -1 && node.posCons != -1 then
    VNode.g [result, lock x y]
  else if node.layerCons != -1 then
    VNode.g [result, layerConsIcon (x + 2) (y - 2)]
  else if node.posCons != -1 then
    VNode.g [result, posConsIcon (x + 2) (y - 2)]
  else
    result

mutual

/-- All x coordinates handed to the `lock` and `arrow` creators anywhere in a
virtual-DOM tree, in document order. -/
def iconXs : VNode → List Rat
  | VNode.g cs => iconXsList cs
  | VNode.lockIcon x _ => [x]
  | VNode.arrowIcon x _ _ => [x]
  | VNode.rect _ _ _ _ _ _ => []
  | VNode.vline _ _ _ => []
  | VNode.circle _ _ _ _ => []

/-- Computes `iconXs` over a list of children. -/
def iconXsList : List VNode → List Rat
  | [] => []
  | c :: cs => iconXs c ++ iconXsList cs

end

/-- A sufficient well-formedness condition on the outputs of the
`constraint-utils` helpers under which the rendering never hits an
out-of-bounds array access: when a node is selected, `getLayers` is nonempty,
and when the current layer has nodes, `getLayerOfNode` is a valid index into
the layer list. -/
def layersWellFormed (cu : ConstraintUtils) (nodes : List KNode) : Bool :=
  match getSelectedNode nodes with
  | none => true
  | some sel =>
    let layers := cu.getLayers nodes
    let current := cu.getLayerOfNode sel nodes layers
    !layers.isEmpty &&
      ((cu.getNodesOfLayer current nodes).isEmpty
        || (decide (0 ≤ current) && decide (current.toNat < layers.length)))

/-- The reading of `renderConstraints` asserted by the spec sentence under
scrutiny, modelled from its words: one icon by the complete case split on
`layerCons`/`posCons`, the single icon placed with base x coordinate
`node.hierWidth` when that is nonzero and `node.size.width` otherwise — the
plain lock at `(x, 0)` and the combined lock-with-arrow icons at
`(x + 2, -2)`. -/
def constraintIconSpec (node : KNode) : VNode :=
  let x := if node.hierWidth != 0 then node.hierWidth else node.size.width
  if node.layerCons != -1 && node.posCons != -1 then
    VNode.g [VNode.g [], lock x 0]
  else if node.layerCons != -1 then
    VNode.g [VNode.g [], layerConsIcon (x + 2) (-2)]
  else if node.posCons != -1 then
    VNode.g [VNode.g [], posConsIcon (x + 2) (-2)]
  else
    VNode.g []

/-- A childless node with only the layer constraint set and a nonzero
`hierWidth`. -/
def c8Node : KNode :=
  KNode.mk { selected := false, layerId := 0, posId := 0, layerCons := 0, posCons := -1,
             position := ⟨0, 0⟩, size := ⟨4, 3⟩, hierWidth := 1, hierHeight := 0 } []

/-- A concrete layer used by the concrete witnesses. -/
def trivLayer : Layer := ⟨0, 10, 5, 0, 20⟩

/-- A concrete, well-behaved instantiation of the `constraint-utils`
environment used by the concrete witnesses: one layer, current layer index 0,
nodes of a layer selected by their `layerId`. -/
def sampleCU : ConstraintUtils :=
  { filterKNodes := fun ns => ns
    getLayers := fun _ => [trivLayer]
    getLayerOfNode := fun _ _ _ => 0
    isLayerForbidden := fun _ _ => false
    shouldOnlyLCBeSet := fun _ _ => false
    getNodesOfLayer := fun i ns => ns.filter (fun n => n.layerId == i)
    getPosInLayer := fun _ _ => 0 }

/-- A concrete selected node in layer 0. -/
def nodeSel : KNode :=
  KNode.mk { selected := true, layerId := 0, posId := 0, layerCons := -1, posCons := -1,
             position := ⟨1, 2⟩, size := ⟨4, 3⟩, hierWidth := 0, hierHeight := 0 } []

/-- A concrete unselected node in layer 0. -/
def nodeUnsel : KNode :=
  KNode.mk { selected := false, layerId := 0, posId := 1, layerCons := -1, posCons := -1,
             position := ⟨1, 12⟩, size := ⟨4, 3⟩, hierWidth := 0, hierHeight := 0 } []

/-- A concrete root node whose only child is the selected node. -/
def sampleRoot : KNode :=
  KNode.mk { selected := false, layerId := -1, posId := -1, layerCons := -1, posCons := -1,
             position := ⟨0, 0⟩, size := ⟨30, 20⟩, hierWidth := 0, hierHeight := 0 } [nodeSel]

/-!  ## Theorems for the claims -/

/-- C4: for every `KLighDExtension` constructed with options containing a
language client, `activateLanguageClient` returns exactly that stored client,
for any `ExtensionContext` argument. -/
theorem c4_activateLanguageClient_returns_stored_client {Client Ctx : Type}
    (st : KLighDStatic Client) (ctx : Ctx) (options : KLighDExtensionOptions Client)
    (ctx2 : Ctx) :
    activateLanguageClient (KLighDExtension.construct st ctx options).1 ctx2
      = some options.lsClient := rfl

/-- C9: `getDiagramType` returns the configured diagram type exactly when the
first command argument is a `Uri` whose path ends with a supported file
ending; in every other case it returns `undefined`. -/
theorem c9_getDiagramType_iff {Client : Type} (dt : String) (ext : KLighDExtension Client)
    (commandArgs : List CommandArg) (r : String) :
    getDiagramType dt ext commandArgs = some r ↔
      (r = dt ∧ ∃ u rest, commandArgs = CommandArg.uri u :: rest ∧
        pathHasSupportedFileEnding ext.supportedFileEndings u.path = true) := by
  cases commandArgs with
  | nil => simp [getDiagramType]
  | cons a rest =>
    cases a with
    | uri u =>
      simp only [getDiagramType]
      split
      · next hc =>
        constructor
        · intro he
          injection he with he
          subst he
          exact ⟨rfl, u, rest, rfl, hc⟩
        · rintro ⟨rfl, u', rest', heq, _⟩
          rfl
      · next hc =>
        constructor
        · intro he
          cases he
        · rintro ⟨rfl, u', rest', heq, hany⟩
          injection heq with h1 h2
          injection h1 with h3
          subst h3
          rw [hany] at hc
          exact absurd rfl hc
    | other t =>
      simp only [getDiagramType]
      constructor
      · intro he
        cases he
      · rintro ⟨rfl, u', rest', heq, _⟩
        cases heq

/-- C3: `onCurrentEditorChanged` draws a diagram for a URI exactly when a
diagram widget exists, the editor widget is defined, and its resource URI is a
URI instance; otherwise it does nothing. -/
theorem c3_onCurrentEditorChanged_iff {U W : Type} (widgets : List W)
    (editorWidget : Option (EditorWidget U)) (uri : U) :
    onCurrentEditorChanged widgets editorWidget = some uri ↔
      (widgets ≠ [] ∧ ∃ ew, editorWidget = some ew ∧ ew.getResourceUri = some uri) := by
  unfold onCurrentEditorChanged
  cases hl : widgets.getLast? with
  | none =>
    have hw : widgets = [] := by
      by_contra hne
      have hs := List.getLast?_isSome.mpr hne
      rw [hl] at hs
      simp at hs
    simp [hw]
  | some w =>
    have hne : widgets ≠ [] := by
      intro h
      subst h
      simp at hl
    cases editorWidget with
    | none => simp [hne]
    | some ew =>
      cases hu : ew.getResourceUri with
      | none => simp [hne, hu]
      | some u => simp [hne, hu]

/-- C1: `createWidget` throws exactly on options rejected by
`DiagramWidgetOptions.is`, with the fixed message prefix followed by the JSON
serialization of the options; on accepted options it returns a newly
constructed `KeithDiagramWidget`. -/
theorem c1_createWidget_spec {Opts Container Connector : Type}
    (env : CreateWidgetEnv Opts Container) (connector : Connector) (options : Opts) :
    (∀ msg, createWidget env connector options = Except.error msg ↔
        (env.isDiagramWidgetOptions options = false ∧
         msg = "DiagramWidgetFactory needs DiagramWidgetOptions but got "
           ++ env.jsonStringify options)) ∧
    (env.isDiagramWidgetOptions options = true ↔
      createWidget env connector options = Except.ok
        (TheiaWidget.keithDiagramWidget options createClientId
          (env.createContainer options (createClientId ++ "_sprotty")) connector)) := by
  unfold createWidget
  cases h : env.isDiagramWidgetOptions options with
  | false => simp [eq_comm]
  | true => simp

/-- C5: `open` delegates to the base `open` with `mode` forced to `'reveal'`
and every other field of the options preserved, returns the same widget
promise, and fires `onDiagramOpened` with exactly the opened URI. -/
theorem c5_open_spec {U W ρ : Type} (superOpen : U → WidgetOpenerOptions ρ → W) (uri : U)
    (input : Option (WidgetOpenerOptions ρ)) :
    (openDiagram superOpen uri input).superUri = uri ∧
    (openDiagram superOpen uri input).superOptions.mode = some "reveal" ∧
    (openDiagram superOpen uri input).superOptions.rest
        = (match input with | some i => i.rest | none => none) ∧
    (openDiagram superOpen uri input).result
        = superOpen uri (openDiagram superOpen uri input).superOptions ∧
    (openDiagram superOpen uri input).fired = uri := by
  cases input <;> simp [openDiagram, spreadWithReveal]

/-- C6: `createWidgetOptions` returns the base contract's widget options with
only the `label` replaced by `'Diagram'`; every other field is unchanged. -/
theorem c6_createWidgetOptions_spec {U ρ σ : Type}
    (superCreateWidgetOptions : U → Option (WidgetOpenerOptions ρ) → WidgetFactoryOptions σ)
    (uri : U) (options : Option (WidgetOpenerOptions ρ)) :
    (createWidgetOptions superCreateWidgetOptions uri options).label = "Diagram" ∧
    (createWidgetOptions superCreateWidgetOptions uri options).rest
        = (superCreateWidgetOptions uri options).rest := by
  constructor <;> rfl

/-- C2: when no node of the list is selected, `renderLayer` silently no-ops:
it returns the empty group, creates no shapes, and leaves every field of the
root unchanged. -/
theorem c2_renderLayer_noop (cu : ConstraintUtils) (nodes : List KNode) (root : KNode)
    (h : ∀ n ∈ nodes, n.selected = false) :
    renderLayer cu nodes root = some (VNode.g [], root) := by
  have hsel : getSelectedNode nodes = none := by
    unfold getSelectedNode
    exact List.find?_eq_none.2 (fun n hn => by simp [h n hn])
  unfold renderLayer
  rw [hsel]

/-- C2 witness: a concrete unselected node list. -/
theorem c2_renderLayer_noop_witness :
    (∀ n ∈ [nodeUnsel], n.selected = false) ∧
    renderLayer sampleCU [nodeUnsel] sampleRoot = some (VNode.g [], sampleRoot) :=
  ⟨by decide, c2_renderLayer_noop sampleCU [nodeUnsel] sampleRoot (by decide)⟩

/-- C8 counterexample: a node with nonzero `hierWidth` and only the layer
constraint set receives its icon at x coordinate `hierWidth + 2`, not
`hierWidth` — no lock or arrow of the rendered icon sits at `hierWidth`. -/
theorem c8_counterexample :
    c8Node.hierWidth ≠ 0 ∧ c8Node.layerCons ≠ -1 ∧ c8Node.posCons = -1 ∧
    renderConstraints c8Node
      = VNode.g [VNode.g [], layerConsIcon (c8Node.hierWidth + 2) (0 - 2)] ∧
    iconXs (renderConstraints c8Node)
      = [c8Node.hierWidth + 2, c8Node.hierWidth + 2 - 2.15] ∧
    c8Node.hierWidth ∉ iconXs (renderConstraints c8Node) := by
  refine ⟨by decide, by decide, by decide, rfl, ?_, ?_⟩
  · simp [iconXs, iconXsList, renderConstraints, layerConsIcon, lock, arrow, c8Node,
      KNode.hierWidth, KNode.layerCons, KNode.posCons, KNode.data, KNode.size]
  · simp [iconXs, iconXsList, renderConstraints, layerConsIcon, lock, arrow, c8Node,
      KNode.hierWidth, KNode.layerCons, KNode.posCons, KNode.data, KNode.size]
    norm_num

/-- C8 amended: `renderConstraints` realizes the claimed complete case split,
with the plain lock at the base x coordinate and the single-constraint icons
at base plus 2. -/
theorem c8_renderConstraints_amended (node : KNode) :
    renderConstraints node = constraintIconSpec node := by
  unfold renderConstraints constraintIconSpec
  have h02 : (0 : Rat) - 2 = -2 := by norm_num
  split_ifs <;> simp [h02]

/-- C10 -/
theorem c10_renderLayer_root_update (cu : ConstraintUtils) (nodes : List KNode)
    (root : KNode) (sel : KNode)
    (hsel : getSelectedNode nodes = some sel)
    (hsome : (renderLayer cu nodes root).isSome = true) :
    ∃ firstLayer lastL,
      (cu.getLayers nodes).head? = some firstLayer ∧
      (cu.getLayers nodes).getLast? = some lastL ∧
      Option.map Prod.snd (renderLayer cu nodes root)
        = some (root.setHier root.size.height
            ((if showNewLastLayer cu nodes (cu.getLayers nodes).length
              then lastL.rightX + lastL.rightX - lastL.leftX
              else lastL.rightX) - firstLayer.leftX + 10)) := by
  unfold renderLayer at hsome ⊢
  simp only [hsel] at hsome ⊢
  cases hh : (cu.getLayers nodes).head? with
  | none =>
    simp only [hh] at hsome
    cases hl : (cu.getLayers nodes).getLast? with
    | none => simp [hl] at hsome
    | some lastL => simp [hl] at hsome
  | some firstLayer =>
    cases hl : (cu.getLayers nodes).getLast? with
    | none => simp [hh, hl] at hsome
    | some lastL =>
      simp only [hh, hl] at hsome ⊢
      refine ⟨firstLayer, lastL, rfl, rfl, ?_⟩
      by_cases holc : (cu.shouldOnlyLCBeSet sel (cu.getLayers nodes)
          && sel.layerId != cu.getLayerOfNode sel nodes (cu.getLayers nodes)) = true
      · simp [holc]
      · simp only [Bool.not_eq_true] at holc
        simp only [holc] at hsome ⊢
        cases hp : renderPositions cu (cu.getLayerOfNode sel nodes (cu.getLayers nodes))
            nodes (cu.getLayers nodes)
            (cu.isLayerForbidden sel (cu.getLayerOfNode sel nodes (cu.getLayers nodes))) with
        | none => simp [hp] at hsome
        | some positions => simp [hp]

/-- C10 witness -/
theorem c10_renderLayer_root_update_witness :
    getSelectedNode [nodeSel] = some nodeSel ∧
    (renderLayer sampleCU [nodeSel] sampleRoot).isSome = true ∧
    (∃ firstLayer lastL,
      (sampleCU.getLayers [nodeSel]).head? = some firstLayer ∧
      (sampleCU.getLayers [nodeSel]).getLast? = some lastL ∧
      Option.map Prod.snd (renderLayer sampleCU [nodeSel] sampleRoot)
        = some (sampleRoot.setHier sampleRoot.size.height
            ((if showNewLastLayer sampleCU [nodeSel] (sampleCU.getLayers [nodeSel]).length
              then lastL.rightX + lastL.rightX - lastL.leftX
              else lastL.rightX) - firstLayer.leftX + 10))) :=
  ⟨rfl, by decide,
    c10_renderLayer_root_update sampleCU [nodeSel] sampleRoot nodeSel rfl (by decide)⟩

/-- Helper: `renderPositions` succeeds whenever the node list is nonempty, the
layer list is nonempty, and the current index is in bounds when its layer has
nodes. -/
theorem renderPositions_isSome (cu : ConstraintUtils) (current : Int) (nodes : List KNode)
    (layers : List Layer) (forbidden : Bool)
    (hnodes : nodes ≠ [])
    (hlayers : layers ≠ [])
    (hcur : cu.getNodesOfLayer current nodes ≠ [] →
      0 ≤ current ∧ current.toNat < layers.length) :
    (renderPositions cu current nodes layers forbidden).isSome = true := by
  unfold renderPositions
  cases nodes with
  | nil => exact absurd rfl hnodes
  | cons n0 rest =>
    cases hms : List.insertionSort (fun a b => a.posId ≤ b.posId)
        (cu.getNodesOfLayer current (n0 :: rest)) with
    | nil =>
      obtain ⟨lst, hlst⟩ : ∃ l, layers.getLast? = some l := by
        cases hgl : layers.getLast? with
        | none =>
          have hls := List.getLast?_isSome.mpr hlayers
          rw [hgl] at hls
          cases hls
        | some l => exact ⟨l, rfl⟩
      simp [hms, hlst]
    | cons first rest' =>
      have hlen : (cu.getNodesOfLayer current (n0 :: rest)) ≠ [] := by
        intro hnil
        rw [hnil] at hms
        simp [List.insertionSort] at hms
      obtain ⟨h0, hlt⟩ := hcur hlen
      obtain ⟨lay, hlay⟩ : ∃ l, layers[current.toNat]? = some l :=
        ⟨layers[current.toNat], List.getElem?_eq_getElem hlt⟩
      simp [hms, h0, hlay]

/-- Helper: `renderLayer` succeeds under `layersWellFormed`. -/
theorem renderLayer_isSome (cu : ConstraintUtils) (nodes : List KNode) (root : KNode)
    (h : layersWellFormed cu nodes = true) :
    (renderLayer cu nodes root).isSome = true := by
  cases hsel : getSelectedNode nodes with
  | none =>
    unfold renderLayer
    simp [hsel]
  | some sel =>
    unfold layersWellFormed at h
    rw [hsel] at h
    simp only [Bool.and_eq_true, Bool.or_eq_true, Bool.not_eq_true',
      decide_eq_true_eq, List.isEmpty_iff] at h
    obtain ⟨hlne, hcond⟩ := h
    have hlayers : cu.getLayers nodes ≠ [] := by
      intro hnil
      rw [hnil] at hlne
      simp at hlne
    obtain ⟨f, hf⟩ : ∃ f, (cu.getLayers nodes).head? = some f := by
      cases hgl : (cu.getLayers nodes).head? with
      | none =>
        rw [List.head?_eq_none_iff] at hgl
        exact absurd hgl hlayers
      | some f => exact ⟨f, rfl⟩
    obtain ⟨l, hl⟩ : ∃ l, (cu.getLayers nodes).getLast? = some l := by
      cases hgl : (cu.getLayers nodes).getLast? with
      | none =>
        have hls := List.getLast?_isSome.mpr hlayers
        rw [hgl] at hls
        cases hls
      | some l => exact ⟨l, rfl⟩
    have hn : nodes ≠ [] := by
      intro hnil
      rw [hnil] at hsel
      cases hsel
    unfold renderLayer
    simp only [hsel, hf, hl]
    by_cases holc : (cu.shouldOnlyLCBeSet sel (cu.getLayers nodes)
        && sel.layerId != cu.getLayerOfNode sel nodes (cu.getLayers nodes)) = true
    · simp [holc]
    · simp only [Bool.not_eq_true] at holc
      simp only [holc]
      have hrp := renderPositions_isSome cu
        (cu.getLayerOfNode sel nodes (cu.getLayers nodes)) nodes (cu.getLayers nodes)
        (cu.isLayerForbidden sel (cu.getLayerOfNode sel nodes (cu.getLayers nodes))) hn hlayers
        (by
          intro hne
          rcases hcond with hc1 | hc2
          · exact absurd hc1 hne
          · exact hc2)
      cases hp : renderPositions cu (cu.getLayerOfNode sel nodes (cu.getLayers nodes))
          nodes (cu.getLayers nodes)
          (cu.isLayerForbidden sel (cu.getLayerOfNode sel nodes (cu.getLayers nodes))) with
      | none =>
        rw [hp] at hrp
        cases hrp
      | some positions => simp [hp]

/-- C7 -/
theorem c7_renderInteractiveLayout_total (cu : ConstraintUtils) (root : KNode)
    (h : layersWellFormed cu (cu.filterKNodes root.children) = true) :
    ∃ out, renderInteractiveLayout cu root = some out := by
  have hs := renderLayer_isSome cu (cu.filterKNodes root.children) root h
  obtain ⟨p, hp⟩ := Option.isSome_iff_exists.mp hs
  refine ⟨(VNode.g [p.1], p.2), ?_⟩
  unfold renderInteractiveLayout
  simp only [hp]
  rfl

/-- C7 witness -/
theorem c7_renderInteractiveLayout_total_witness :
    layersWellFormed sampleCU (sampleCU.filterKNodes sampleRoot.children) = true ∧
    ∃ out, renderInteractiveLayout sampleCU sampleRoot = some out :=
  ⟨by decide, c7_renderInteractiveLayout_total sampleCU sampleRoot (by decide)⟩

end Klighd
